import Mathlib

set_option maxRecDepth 1000000
set_option maxHeartbeats 2000000

/-
Shallow embedding of the chesstp network-protocol subsystem of the
rsoderh-gui chess application, together with proofs about its behaviour.

Modelling conventions:
  - Rust `&str` / `String` values are modelled as `List Char`
    (a Rust string is a sequence of Unicode scalar values).
  - Raw bytes (`&[u8]`) are modelled as `List Nat`.
  - Panics (out-of-bounds indexing, `expect`, `unreachable!`) are modelled
    by an outer `Option` layer: `none` means the Rust code would panic.
  - Fallible operations return `Except`.
  - The non-blocking TCP reader is modelled by `NetReader`: the bytes the
    `BufReader` currently holds, plus the list of byte chunks future reads
    of the socket will deliver, plus whether the peer has closed the
    stream (end of stream) once those chunks are exhausted.
-/

/-- Rust `str::split` with a single-character pattern, on `List Char`. -/
def splitOnChar (sep : Char) : List Char → List (List Char)
  | [] => [[]]
  | c :: rest =>
    if c = sep then [] :: splitOnChar sep rest
    else
      match splitOnChar sep rest with
      | [] => [[c]]
      | h :: t => (c :: h) :: t

/-- Rust `str::split_once` with a single-character pattern, on `List Char`. -/
def splitOnceChar (sep : Char) : List Char → Option (List Char × List Char)
  | [] => none
  | c :: rest =>
    if c = sep then some ([], rest)
    else (splitOnceChar sep rest).map (fun p => (c :: p.1, p.2))

/-- Rust slice index assignment `v[i] = x`; `none` models the out-of-bounds
panic. -/
def setAt {α : Type} (l : List α) (i : Nat) (x : α) : Option (List α) :=
  if i < l.length then some (l.set i x) else none

/-- Rust `char::to_digit`: decimal digits, then lowercase letters, then
uppercase letters, checked against the radix. -/
def charToDigit (c : Char) (radix : Nat) : Option Nat :=
  let raw : Option Nat :=
    if 48 ≤ c.toNat ∧ c.toNat ≤ 57 then some (c.toNat - 48)
    else if 97 ≤ c.toNat ∧ c.toNat ≤ 122 then some (c.toNat - 97 + 10)
    else if 65 ≤ c.toNat ∧ c.toNat ≤ 90 then some (c.toNat - 65 + 10)
    else none
  match raw with
  | some d => if d < radix then some d else none
  | none => none

/-- Rust `char::from_digit`: `'0' + d` for `d < 10`, else `'a' + d - 10`. -/
def charFromDigit (d radix : Nat) : Option Char :=
  if d < radix then
    if d < 10 then some (Char.ofNat (48 + d)) else some (Char.ofNat (87 + d))
  else none

/-- Rust `char::to_ascii_lowercase`. -/
def toAsciiLower (c : Char) : Char :=
  if 65 ≤ c.toNat ∧ c.toNat ≤ 90 then Char.ofNat (c.toNat + 32) else c

/-- Rust `char::to_ascii_uppercase`. -/
def toAsciiUpper (c : Char) : Char :=
  if 97 ≤ c.toNat ∧ c.toNat ≤ 122 then Char.ofNat (c.toNat - 32) else c

/-- Number of bytes in the UTF-8 encoding of one character. -/
def utf8SizeChar (c : Char) : Nat :=
  if c.toNat < 0x80 then 1
  else if c.toNat < 0x800 then 2
  else if c.toNat < 0x10000 then 3
  else 4

/-- Total byte length of the UTF-8 encoding of a string. -/
def utf8Length (l : List Char) : Nat := (l.map utf8SizeChar).sum

/-- UTF-8 encoding of one character (always a valid Unicode scalar value). -/
def encodeCharUtf8 (c : Char) : List Nat :=
  let v := c.toNat
  if v < 0x80 then [v]
  else if v < 0x800 then [0xC0 + v / 64, 0x80 + v % 64]
  else if v < 0x10000 then [0xE0 + v / 4096, 0x80 + v / 64 % 64, 0x80 + v % 64]
  else [0xF0 + v / 262144, 0x80 + v / 4096 % 64, 0x80 + v / 64 % 64,
    0x80 + v % 64]

/-- UTF-8 encoding of a string as a byte sequence. -/
def utf8Encode (l : List Char) : List Nat := l.flatMap encodeCharUtf8

/-- Model of Rust `str::from_utf8`: strict UTF-8 decoding, rejecting
truncated sequences, bad continuation bytes, overlong forms, surrogates and
out-of-range values. `none` models a `Utf8Error`. -/
def decodeUtf8 : List Nat → Option (List Char)
  | [] => some []
  | b :: bs =>
    if b < 0x80 then (decodeUtf8 bs).map (fun t => Char.ofNat b :: t)
    else if b < 0xC2 then none
    else
      match bs with
      | [] => none
      | b2 :: bs2 =>
        if b < 0xE0 then
          if 0x80 ≤ b2 ∧ b2 < 0xC0 then
            (decodeUtf8 bs2).map
              (fun t => Char.ofNat ((b - 0xC0) * 64 + (b2 - 0x80)) :: t)
          else none
        else
          match bs2 with
          | [] => none
          | b3 :: bs3 =>
            if b < 0xF0 then
              if (0x80 ≤ b2 ∧ b2 < 0xC0) ∧ (0x80 ≤ b3 ∧ b3 < 0xC0) ∧
                  (b = 0xE0 → 0xA0 ≤ b2) ∧ (b = 0xED → b2 < 0xA0) then
                (decodeUtf8 bs3).map
                  (fun t =>
                    Char.ofNat ((b - 0xE0) * 4096 + (b2 - 0x80) * 64 +
                      (b3 - 0x80)) :: t)
              else none
            else
              match bs3 with
              | [] => none
              | b4 :: bs4 =>
                if b < 0xF5 then
                  if (0x80 ≤ b2 ∧ b2 < 0xC0) ∧ (0x80 ≤ b3 ∧ b3 < 0xC0) ∧
                      (0x80 ≤ b4 ∧ b4 < 0xC0) ∧ (b = 0xF0 → 0x90 ≤ b2) ∧
                      (b = 0xF4 → b2 < 0x90) then
                    (decodeUtf8 bs4).map
                      (fun t =>
                        Char.ofNat ((b - 0xF0) * 262144 + (b2 - 0x80) * 4096 +
                          (b3 - 0x80) * 64 + (b4 - 0x80)) :: t)
                  else none
                else none

/-- Decidable equality for `Except` (not provided by the core library). -/
instance {ε α : Type} [DecidableEq ε] [DecidableEq α] :
    DecidableEq (Except ε α) := fun a b =>
  match a, b with
  | .error e1, .error e2 =>
    if h : e1 = e2 then .isTrue (by rw [h]) else .isFalse (by simp [h])
  | .ok x1, .ok x2 =>
    if h : x1 = x2 then .isTrue (by rw [h]) else .isFalse (by simp [h])
  | .error _, .ok _ => .isFalse (by simp)
  | .ok _, .error _ => .isFalse (by simp)

/- ===== `src/chess_game.rs`: value types ===== -/

/-- `chess_game::Color`. -/
inductive Color
  | White
  | Black
deriving DecidableEq

/-- `chess_game::PieceKind`. -/
inductive PieceKind
  | Pawn
  | Knight
  | Bishop
  | Rook
  | Queen
  | King
deriving DecidableEq

/-- `chess_game::Piece`. -/
structure Piece where
  kind : PieceKind
  color : Color
deriving DecidableEq

/-- `chess_game::Position`: a pair of `PositionIndex` (each a `u8` that the
validated constructor guarantees to lie in `0..8`, modelled as `Fin 8`).
The first component is the column, the second the row. -/
structure Position where
  column : Fin 8
  row : Fin 8
deriving DecidableEq

/-- `Position::new` (via `PositionIndex::new`): validated constructor. -/
def Position.new (column row : Nat) : Option Position :=
  if h : column < 8 ∧ row < 8 then some ⟨⟨column, h.1⟩, ⟨row, h.2⟩⟩ else none

/-- `Position::parse`: parse from a string like `"a1"`, case insensitive
(column `'a'..='h' | 'A'..='H'`, row `'1'..='8'`). -/
def Position.parse (s : List Char) : Option Position :=
  match s with
  | [c, r] =>
    if ((97 ≤ c.toNat ∧ c.toNat ≤ 104) ∨ (65 ≤ c.toNat ∧ c.toNat ≤ 72)) ∧
        (49 ≤ r.toNat ∧ r.toNat ≤ 56) then
      match charToDigit c 18, charToDigit r 10 with
      | some cd, some rd => Position.new (cd - 10) (rd - 1)
      | _, _ => none
    else none
  | _ => none

/-- `Position::to_string(true)`: two-character uppercase algebraic notation.
The `expect`s in the source cannot fire because `column + 10 < 18` and
`row + 1 < 10` always hold; the `[]` arm is that dead branch. -/
def Position.toStringUpperChars (p : Position) : List Char :=
  match charFromDigit (p.column.val + 10) 18, charFromDigit (p.row.val + 1) 10 with
  | some c, some r => [toAsciiUpper c, r]
  | _, _ => []

/- ===== `src/network/chesstp.rs`: codec types ===== -/

/-- `chesstp::BoardParseError`. -/
inductive BoardParseError
  | InvalidTileCharacter (c : Char)
  | InvalidRowCount (n : Nat)
  | InvalidColumnCount (n : Nat)
deriving DecidableEq

/-- `chesstp::ParseError`. The `Utf8Error` payload is not modelled. -/
inductive ParseError
  | Utf8Error
  | InvalidMessageId (id : List Char)
  | TooFewParts (n : Nat)
  | InvalidMove (s : List Char)
  | InvalidGamePhase (s : List Char)
  | InvalidBoard (s : List Char) (e : BoardParseError)
deriving DecidableEq

/-- `chesstp::GamePhase`. -/
inductive GamePhase
  | Ongoing
  | WhiteWin
  | BlackWin
  | Draw
deriving DecidableEq

/-- State of the `chesstp::FenBoardRowPieces` iterator: the remaining row
string and how many tiles have been returned for its current first
character. -/
structure FenState where
  row : List Char
  returned_tiles : Nat
deriving DecidableEq

/-- `<FenBoardRowPieces as Iterator>::next`.  Digits `'1'..='8'` yield that
many empty tiles before the character is consumed; piece letters yield one
piece; any other character yields `InvalidTileCharacter` and is skipped.
The `unreachable!()` arm of the kind match is dead (the guard admits only
the twelve piece letters); the `_ => .King` arm covers it. -/
def FenState.next (s : FenState) :
    Option (Except BoardParseError (Option Piece) × FenState) :=
  match s.row with
  | [] => none
  | c :: rest =>
    if 49 ≤ c.toNat ∧ c.toNat ≤ 56 then
      let empty_tiles_total := c.toNat - 48
      if s.returned_tiles + 1 ≥ empty_tiles_total then
        some (.ok none, ⟨rest, 0⟩)
      else
        some (.ok none, ⟨s.row, s.returned_tiles + 1⟩)
    else if c = 'p' ∨ c = 'n' ∨ c = 'b' ∨ c = 'r' ∨ c = 'q' ∨ c = 'k' ∨
        c = 'P' ∨ c = 'N' ∨ c = 'B' ∨ c = 'R' ∨ c = 'Q' ∨ c = 'K' then
      let color := if 65 ≤ c.toNat ∧ c.toNat ≤ 90 then Color.White
        else Color.Black
      let kind :=
        match toAsciiLower c with
        | 'p' => PieceKind.Pawn
        | 'n' => PieceKind.Knight
        | 'b' => PieceKind.Bishop
        | 'r' => PieceKind.Rook
        | 'q' => PieceKind.Queen
        | _ => PieceKind.King
      some (.ok (some ⟨kind, color⟩), ⟨rest, s.returned_tiles⟩)
    else
      some (.error (.InvalidTileCharacter c), ⟨rest, s.returned_tiles⟩)

/-- Collecting the `FenBoardRowPieces` iterator, fuelled.  Every `next`
call either consumes one character of the row or raises `returned_tiles`
towards a bound of at most `8`, so `9 * row.length + 9` fuel is always
sufficient (see `fenItemsFuel_congr`). -/
def fenItemsFuel : Nat → FenState → List (Except BoardParseError (Option Piece))
  | 0, _ => []
  | fuel + 1, s =>
    match s.next with
    | none => []
    | some (item, s2) => item :: fenItemsFuel fuel s2

/-- All items produced by `FenBoardRowPieces::new(row)`. -/
def fenItems (row : List Char) : List (Except BoardParseError (Option Piece)) :=
  fenItemsFuel (9 * row.length + 9) ⟨row, 0⟩

/-- `chesstp::Board`: the exchange representation of a board position,
structured like `chess::game::game_state` (9×9 vectors of piece-name
strings and player characters; row and column 0 are unused borders). -/
structure Board where
  board : List (List String)
  player : List (List Char)
deriving DecidableEq

/-- `Board::new_empty`. -/
def Board.new_empty : Board :=
  { board := List.replicate 9 (List.replicate 9 "empty"),
    player := List.replicate 9 (List.replicate 9 ' ') }

/-- The string `Board::set_tile` stores for a tile content. -/
def kindString (piece : Option Piece) : String :=
  match piece.map Piece.kind with
  | some PieceKind.Pawn => "pawn"
  | some PieceKind.Knight => "knight"
  | some PieceKind.Bishop => "bishop"
  | some PieceKind.Rook => "rook"
  | some PieceKind.Queen => "queen"
  | some PieceKind.King => "king"
  | none => "empty"

/-- The character `Board::set_tile` stores for a tile owner. -/
def colorChar (piece : Option Piece) : Char :=
  match piece.map Piece.color with
  | some Color.White => 'w'
  | some Color.Black => 'b'
  | none => ' '

/-- The inverse kind lookup performed by `Board::tile`; the outer `none`
models the `unreachable!()` panic on an unknown string. -/
def kindOfString (s : String) : Option (Option PieceKind) :=
  match s with
  | "pawn" => some (some PieceKind.Pawn)
  | "knight" => some (some PieceKind.Knight)
  | "bishop" => some (some PieceKind.Bishop)
  | "rook" => some (some PieceKind.Rook)
  | "queen" => some (some PieceKind.Queen)
  | "king" => some (some PieceKind.King)
  | "empty" => some none
  | _ => none

/-- `Board::tile`: reads `board[row+1][col+1]` and `player[row+1][col+1]`.
`none` of the outer `Option` models a panic (out-of-bounds index or an
`unreachable!()` on unexpected cell contents); the inner `Option Piece` is
the returned tile content. -/
def Board.tile (b : Board) (t : Position) : Option (Option Piece) := do
  let brow ← b.board[t.row.val + 1]?
  let cell ← brow[t.column.val + 1]?
  let kindOpt ← kindOfString cell
  match kindOpt with
  | none => pure none
  | some kind => do
    let prow ← b.player[t.row.val + 1]?
    let pcell ← prow[t.column.val + 1]?
    match pcell with
    | 'w' => pure (some ⟨kind, Color.White⟩)
    | 'b' => pure (some ⟨kind, Color.Black⟩)
    | ' ' => pure none
    | _ => none

/-- `Board::set_tile`: writes `board[row+1][col+1]` and
`player[row+1][col+1]`; `none` models an out-of-bounds panic. -/
def Board.setTile (b : Board) (t : Position) (piece : Option Piece) :
    Option Board := do
  let brow ← b.board[t.row.val + 1]?
  let brow2 ← setAt brow (t.column.val + 1) (kindString piece)
  let bboard ← setAt b.board (t.row.val + 1) brow2
  let prow ← b.player[t.row.val + 1]?
  let prow2 ← setAt prow (t.column.val + 1) (colorChar piece)
  let bplayer ← setAt b.player (t.row.val + 1) prow2
  pure { board := bboard, player := bplayer }

/-- The row-building pass of `<Board as FromStr>::from_str`: for each
`/`-separated row (textual index `i`, board row `7 - i`) collect the
`FenBoardRowPieces` items tagged with `(column_index, row_index)` and check
that exactly 8 items were produced, short-circuiting at the first row whose
count differs (`Iterator::collect::<Result<_, _>>` semantics). -/
def buildRows : Nat → List (List Char) →
    Except BoardParseError
      (List (List ((Nat × Nat) × Except BoardParseError (Option Piece))))
  | _, [] => .ok []
  | i, row :: rest =>
    let pieces := (fenItems row).enum.map (fun p => ((p.1, 7 - i), p.2))
    if pieces.length = 8 then
      match buildRows (i + 1) rest with
      | .error e => .error e
      | .ok tl => .ok (pieces :: tl)
    else .error (.InvalidColumnCount pieces.length)

/-- The final pass of `<Board as FromStr>::from_str`: `set_tile` every
collected `((column, row), piece)` entry onto an empty board, where the
`piece?` error propagation happens per entry and `Position::new(..).expect`
(a panic, modelled by `none`) precedes it. -/
def applyTiles (b : Board) :
    List ((Nat × Nat) × Except BoardParseError (Option Piece)) →
      Option (Except BoardParseError Board)
  | [] => some (.ok b)
  | ((column_index, row_index), item) :: rest =>
    match Position.new column_index row_index with
    | none => none
    | some position =>
      match item with
      | .error e => some (.error e)
      | .ok piece =>
        match b.setTile position piece with
        | none => none
        | some b2 => applyTiles b2 rest

/-- `<Board as FromStr>::from_str`: parse the piece-placement field of a
FEN position.  Counts `/` matches first (`InvalidRowCount`), then builds
the rows (`InvalidColumnCount`), re-checks the row count, and finally
applies all tiles to an empty board. -/
def Board.fromStr (s : List Char) : Option (Except BoardParseError Board) :=
  if s.count '/' + 1 = 8 then
    match buildRows 0 (splitOnChar '/' s) with
    | .error e => some (.error e)
    | .ok piece_rows =>
      if piece_rows.length = 8 then
        applyTiles Board.new_empty piece_rows.flatten
      else some (.error (.InvalidRowCount piece_rows.length))
  else some (.error (.InvalidRowCount (s.count '/' + 1)))

/-- The move-code match block of `<MoveMessage as FromStr>::from_str`
(the five-character pattern with its range guards, the two
`Position::parse` calls and the promotion match). -/
def moveCodeParse (m : List Char) :
    Except ParseError (Position × Position × Option PieceKind) :=
  match m with
  | [c1, r1, c2, r2, promotion_char] =>
    if (65 ≤ c1.toNat ∧ c1.toNat ≤ 72) ∧ (49 ≤ r1.toNat ∧ r1.toNat ≤ 57) ∧
        (65 ≤ c2.toNat ∧ c2.toNat ≤ 72) ∧ (49 ≤ r2.toNat ∧ r2.toNat ≤ 57) then
      match Position.parse [c1, r1] with
      | none => .error (.InvalidMove m)
      | some source =>
        match Position.parse [c2, r2] with
        | none => .error (.InvalidMove m)
        | some dest =>
          let lc := toAsciiLower promotion_char
          if lc = '0' then .ok (source, dest, none)
          else if lc = 'p' then .ok (source, dest, some PieceKind.Pawn)
          else if lc = 'n' then .ok (source, dest, some PieceKind.Knight)
          else if lc = 'b' then .ok (source, dest, some PieceKind.Bishop)
          else if lc = 'r' then .ok (source, dest, some PieceKind.Rook)
          else if lc = 'q' then .ok (source, dest, some PieceKind.Queen)
          else if lc = 'k' then .ok (source, dest, some PieceKind.King)
          else .error (.InvalidMove m)
    else .error (.InvalidMove m)
  | _ => .error (.InvalidMove m)

/-- `chesstp::MoveMessage`. -/
structure MoveMessage where
  source : Position
  dest : Position
  promotion : Option PieceKind
  phase : GamePhase
  board : Board
deriving DecidableEq

/-- `<MoveMessage as FromStr>::from_str`: parse the remainder of a
`ChessMOVE` frame (everything after the first `:`).  The outer `none`
models a panic; the `[]` arm is the dead
`expect("Split returns at least one element")` branch (`split` never
returns an empty iterator). -/
def MoveMessage.fromStr (s : List Char) : Option (Except ParseError MoveMessage) :=
  match splitOnChar ':' s with
  | [] => none
  | [_] => some (.error (.TooFewParts 2))
  | [_, _] => some (.error (.TooFewParts 3))
  | [_, _, _] => some (.error (.TooFewParts 4))
  | move_str :: phase_str :: board_str :: _ :: _ =>
    match moveCodeParse move_str with
    | .error e => some (.error e)
    | .ok (source, dest, promotion) =>
      let phase : Option GamePhase :=
        if phase_str = ['0', '-', '0'] then some GamePhase.Ongoing
        else if phase_str = ['1', '-', '0'] then some GamePhase.WhiteWin
        else if phase_str = ['0', '-', '1'] then some GamePhase.BlackWin
        else if phase_str = ['1', '-', '1'] then some GamePhase.Draw
        else none
      match phase with
      | none => some (.error (.InvalidGamePhase phase_str))
      | some phase =>
        match Board.fromStr board_str with
        | none => none
        | some (.error e) => some (.error (.InvalidBoard board_str e))
        | some (.ok board) =>
          some (.ok ⟨source, dest, promotion, phase, board⟩)

/-- `chesstp::QuitMessage`. -/
structure QuitMessage where
  message : List Char
deriving DecidableEq

/-- `<QuitMessage as FromStr>::from_str`: the first `:`-separated part is
the free-text message; a second part (the padding) must exist.  The `[]`
arm is the dead `expect` branch. -/
def QuitMessage.fromStr (s : List Char) : Option (Except ParseError QuitMessage) :=
  match splitOnChar ':' s with
  | [] => none
  | [_] => some (.error (.TooFewParts 2))
  | message :: _ :: _ => some (.ok ⟨message⟩)

/-- `chesstp::Message`. -/
inductive Message
  | Move (m : MoveMessage)
  | Quit (q : QuitMessage)
deriving DecidableEq

/-- `chesstp::split_message` followed by the identifier dispatch of
`Message::parse_from`, at the character level (after `str::from_utf8`). -/
def Message.parseFromChars (chars : List Char) : Option (Except ParseError Message) :=
  match splitOnceChar ':' chars with
  | none => some (.error (.TooFewParts 1))
  | some (identifier, rest) =>
    if identifier = "ChessMOVE".toList then
      (MoveMessage.fromStr rest).map (Except.map Message.Move)
    else if identifier = "ChessQUIT".toList then
      (QuitMessage.fromStr rest).map (Except.map Message.Quit)
    else some (.error (.InvalidMessageId identifier))

/-- `Message::parse_from`: reinterpret the 128-byte buffer as UTF-8, then
split on the first `:` and dispatch on the identifier. -/
def Message.parse_from (buffer : List Nat) : Option (Except ParseError Message) :=
  match decodeUtf8 buffer with
  | none => some (.error .Utf8Error)
  | some chars => Message.parseFromChars chars

/- ===== Spec-modelled serialization =====

`Message::serialize` (and the board encoder it uses) is referenced by
`ChesstpMessageStream::write` and by the chesstp tests, but its definition
is not among the sources; the definitions below are modelled from the
specification. -/

/-- Modelled from the spec: the board encoder of `Message::serialize`
(BoardCodec encode) emits one row per board rank.  This helper run-length
encodes one row of cells: `pending` counts empty cells already seen;
a maximal run of `N` empties collapses to the digit `N`, each piece to its
letter (lowercase Black, uppercase White). -/
def rowEncodeAux : Nat → List (Option Piece) → List Char
  | 0, [] => []
  | pending + 1, [] => [Char.ofNat (48 + (pending + 1))]
  | pending, none :: rest => rowEncodeAux (pending + 1) rest
  | 0, some piece :: rest => pieceLetter piece :: rowEncodeAux 0 rest
  | pending + 1, some piece :: rest =>
    Char.ofNat (48 + (pending + 1)) :: pieceLetter piece :: rowEncodeAux 0 rest
where
  /-- Single-letter piece code: p/n/b/r/q/k, uppercase for White. -/
  pieceLetter (piece : Piece) : Char :=
    let lower : Char :=
      match piece.kind with
      | PieceKind.Pawn => 'p'
      | PieceKind.Knight => 'n'
      | PieceKind.Bishop => 'b'
      | PieceKind.Rook => 'r'
      | PieceKind.Queen => 'q'
      | PieceKind.King => 'k'
    match piece.color with
    | Color.White => toAsciiUpper lower
    | Color.Black => lower

/-- Modelled from the spec: BoardCodec encode — 8 rows, most significant
board row (rank 8, row index 7) first, joined with `/`.  Cells are read
through `Board::tile`; a tile read that would panic is treated as empty
(for every board a `Message` can carry, `tile` never panics). -/
def boardEncodeChars (b : Board) : List Char :=
  List.intercalate ['/']
    ((List.range 8).reverse.map
      (fun r =>
        rowEncodeAux 0
          ((List.range 8).map
            (fun c =>
              match Position.new c r with
              | some p => (b.tile p).getD none
              | none => none))))

/-- Modelled from the spec: the promotion code of the move-code field
(`'0'` = none, else the BoardCodec piece letter). -/
def promoChar : Option PieceKind → Char
  | none => '0'
  | some PieceKind.Pawn => 'p'
  | some PieceKind.Knight => 'n'
  | some PieceKind.Bishop => 'b'
  | some PieceKind.Rook => 'r'
  | some PieceKind.Queen => 'q'
  | some PieceKind.King => 'k'

/-- Wire encoding of a `GamePhase` (the inverse of the phase match in
`<MoveMessage as FromStr>::from_str`). -/
def phaseCode : GamePhase → List Char
  | GamePhase.Ongoing => ['0', '-', '0']
  | GamePhase.WhiteWin => ['1', '-', '0']
  | GamePhase.BlackWin => ['0', '-', '1']
  | GamePhase.Draw => ['1', '-', '1']

/-- The five-character move code: source square, destination square (both
uppercase algebraic), promotion code. -/
def moveCodeChars (source dest : Position) (promotion : Option PieceKind) :
    List Char :=
  source.toStringUpperChars ++ dest.toStringUpperChars ++ [promoChar promotion]

/-- Modelled from the spec: pad the frame content with `'0'` filler bytes
up to exactly 128 bytes. -/
def padTo128 (core : List Char) : List Char :=
  core ++ List.replicate (128 - utf8Length core) '0'

/-- Modelled from the spec: `Message::serialize`, character level — build
the `:`-joined fields for the variant, then zero-pad to 128 bytes. -/
def Message.serializeChars : Message → List Char
  | Message.Move m =>
    padTo128 ("ChessMOVE:".toList ++ moveCodeChars m.source m.dest m.promotion
      ++ ':' :: phaseCode m.phase ++ ':' :: boardEncodeChars m.board ++ [':'])
  | Message.Quit q => padTo128 ("ChessQUIT:".toList ++ q.message ++ [':'])

/-- Modelled from the spec: `Message::serialize` — the 128-byte frame. -/
def Message.serialize (m : Message) : List Nat := utf8Encode m.serializeChars

/- ===== `src/network/mod.rs`: the connection stream ===== -/

/-- Model of the inbound half of a non-blocking TCP connection wrapped in
a `BufReader`: `buffer` is the unconsumed part of the `BufReader`'s
internal buffer, `chunks` are the byte groups that successive reads of the
socket will deliver next, and `atEof` tells whether, once `chunks` is
exhausted, the socket reports end of stream (peer closed) rather than
`WouldBlock`. -/
structure NetReader where
  buffer : List Nat
  chunks : List (List Nat)
  atEof : Bool
deriving DecidableEq

/-- Total number of bytes the reader can still deliver. -/
def NetReader.totalLen (r : NetReader) : Nat :=
  r.buffer.length + (r.chunks.map List.length).sum

/-- `BufReader::fill_buf`: returns the buffered bytes, reading from the
socket only if the buffer is empty.  `none` models an
`ErrorKind::WouldBlock` error; returning `[]` models end of stream. -/
def NetReader.fillBuf (r : NetReader) : Option (List Nat × NetReader) :=
  match r.buffer with
  | _ :: _ => some (r.buffer, r)
  | [] =>
    match r.chunks with
    | c :: rest => some (c, { r with buffer := c, chunks := rest })
    | [] => if r.atEof then some ([], r) else none

/-- `BufReader::consume`. -/
def NetReader.consume (r : NetReader) (amt : Nat) : NetReader :=
  { r with buffer := r.buffer.drop amt }

/-- `buf.windows(pat.len()).position(|window| window == pat)`. -/
def findSublistIdx (pat : List Nat) : List Nat → Option Nat
  | [] => if pat.length = 0 then some 0 else none
  | b :: t =>
    if pat.length ≤ (b :: t).length ∧ (b :: t).take pat.length = pat then
      some 0
    else (findSublistIdx pat t).map (fun i => i + 1)

/-- The loop of `network::skip_until_slice`, fuelled: each iteration either
returns or consumes at least one byte, so `totalLen + 1` fuel always
suffices (see `skipUntilSliceFuel_congr`).  Result `(none, r)` models
`Ok(None)` (would-block, or end of stream via the nested
`if buf.is_empty()` branch whose `else` arm is dead); `(some (), r)` models
`Ok(Some(()))` with the reader positioned at the start of the match. -/
def skipUntilSliceFuel (pat : List Nat) : Nat → NetReader → Option Unit × NetReader
  | 0, r => (none, r)
  | fuel + 1, r =>
    match r.fillBuf with
    | none => (none, r)
    | some (buf, r1) =>
      if buf.isEmpty then (none, r1)
      else
        match findSublistIdx pat buf with
        | some pos => (some (), r1.consume pos)
        | none =>
          let keep := pat.length - 1
          let advance := buf.length - keep
          let advance := if advance = 0 then min buf.length 1 else advance
          skipUntilSliceFuel pat fuel (r1.consume advance)

/-- `network::skip_until_slice`. -/
def skip_until_slice (pat : List Nat) (r : NetReader) : Option Unit × NetReader :=
  skipUntilSliceFuel pat (r.totalLen + 1) r

/-- One `BufReader::read` call for a destination of `n < capacity` bytes:
`fill_buf`, copy at most `n` bytes out, `consume` them.  `none` models
`WouldBlock`; `some ([], _)` is `Ok(0)` (end of stream or an empty read). -/
def readOnce (n : Nat) (r : NetReader) : Option (List Nat × NetReader) :=
  match r.fillBuf with
  | none => none
  | some (buf, r1) => some (buf.take n, r1.consume (min n buf.length))

/-- I/O error kinds reachable in this model. -/
inductive ReadErr
  | wouldBlock
  | unexpectedEof
deriving DecidableEq

/-- `default_read_exact` (the slow path of `BufReader::read_exact`):
repeatedly `read` into the remaining part of the destination.  A read of 0
bytes is `UnexpectedEof`; a `WouldBlock` error aborts, **losing the bytes
already read** (they have been consumed from the reader).  Each successful
read returns at least one byte, so `n + 1` fuel always suffices. -/
def readExactLoop : Nat → Nat → NetReader → List Nat →
    Except ReadErr (List Nat) × NetReader
  | 0, _, r, _ => (.error .wouldBlock, r)
  | _ + 1, 0, r, acc => (.ok acc, r)
  | fuel + 1, n + 1, r, acc =>
    match readOnce (n + 1) r with
    | none => (.error .wouldBlock, r)
    | some ([], r1) => (.error .unexpectedEof, r1)
    | some (bs, r1) => readExactLoop fuel (n + 1 - bs.length) r1 (acc ++ bs)

/-- `BufReader::read_exact` for `n` bytes: if the internal buffer already
holds `n` bytes they are copied and consumed wholesale; otherwise the
generic loop runs. -/
def readExact (n : Nat) (r : NetReader) : Except ReadErr (List Nat) × NetReader :=
  if n ≤ r.buffer.length then (.ok (r.buffer.take n), r.consume n)
  else readExactLoop (n + 1) n r []

/-- The byte literal `b"Chess"`. -/
def chessSliceBytes : List Nat := "Chess".toList.map Char.toNat

/-- Error cases of `ChesstpMessageStream::accept` (an `anyhow::Result`):
a non-would-block I/O error, or a message that failed to parse. -/
inductive AcceptError
  | ioError (e : ReadErr)
  | parseFailed (e : ParseError)
deriving DecidableEq

/-- `ChesstpMessageStream::accept`: scan for the `b"Chess"` slice, then
read exactly 128 bytes (would-block yields `Ok(None)`), then parse them.
The outer `none` models a panic inside parsing. -/
def ChesstpMessageStream.accept (r : NetReader) :
    Option (Except AcceptError (Option Message) × NetReader) :=
  match skip_until_slice chessSliceBytes r with
  | (none, r1) => some (.ok none, r1)
  | (some _, r1) =>
    match readExact 128 r1 with
    | (.error .wouldBlock, r2) => some (.ok none, r2)
    | (.error e, r2) => some (.error (.ioError e), r2)
    | (.ok bytes, r2) =>
      match Message.parse_from bytes with
      | none => none
      | some (.ok message) => some (.ok (some message), r2)
      | some (.error e) => some (.error (.parseFailed e), r2)

/-- `ChesstpMessageStream::write`: serialize the message and hand the frame
to the transport once; `accepted` is how many bytes the transport is
willing to take in that single call (`TcpStream::write` returns
`min accepted frame.length` bytes written).  A short write is reported as
an error carrying the written length. -/
def ChesstpMessageStream.write (message : Message) (accepted : Nat) :
    Except Nat Unit :=
  let written_len := min accepted message.serialize.length
  if written_len ≠ 128 then .error written_len else .ok ()

/- ===== Auxiliary values used by the theorems ===== -/

/-- A 9×9 vector-of-vectors whose row 0 and column 0 hold the default `d`
and whose cell `(i, j)` (for `i, j ≥ 1`) holds `cell (j - 1) (i - 1)` —
the layout `Board::new_empty` and `Board::set_tile` maintain. -/
def gridMatrix {α : Type} (cell : Fin 8 → Fin 8 → α) (d : α) :
    List (List α) :=
  List.ofFn (n := 9) fun i => List.ofFn (n := 9) fun j =>
    if h : 1 ≤ i.val ∧ 1 ≤ j.val then
      cell ⟨j.val - 1, by have := j.isLt; omega⟩
        ⟨i.val - 1, by have := i.isLt; omega⟩
    else d

/-- The `chesstp::Board` value holding exactly the 8×8 grid `g`. -/
def boardOfGrid (g : Fin 8 → Fin 8 → Option Piece) : Board :=
  { board := gridMatrix (fun c r => kindString (g c r)) "empty",
    player := gridMatrix (fun c r => colorChar (g c r)) ' ' }

/-- The standard chess starting position as an 8×8 grid (column, row):
row 0 is White's back rank, row 7 Black's. -/
def stdGrid : Fin 8 → Fin 8 → Option Piece := fun c r =>
  let backRank : Fin 8 → PieceKind := fun c =>
    match c.val with
    | 0 => PieceKind.Rook
    | 1 => PieceKind.Knight
    | 2 => PieceKind.Bishop
    | 3 => PieceKind.Queen
    | 4 => PieceKind.King
    | 5 => PieceKind.Bishop
    | 6 => PieceKind.Knight
    | _ => PieceKind.Rook
  match r.val with
  | 0 => some ⟨backRank c, Color.White⟩
  | 1 => some ⟨PieceKind.Pawn, Color.White⟩
  | 6 => some ⟨PieceKind.Pawn, Color.Black⟩
  | 7 => some ⟨backRank c, Color.Black⟩
  | _ => none

/-- A valid 128-byte `ChessQUIT` frame ("hi" as quit text). -/
def quitFrameBytes : List Nat :=
  utf8Encode ("ChessQUIT:hi:".toList ++ List.replicate 115 '0')

/-- Boards reachable from `Board::new_empty` by `Board::set_tile` calls. -/
inductive ReachableBoard : Board → Prop
  | empty : ReachableBoard Board.new_empty
  | step (b : Board) (p : Position) (x : Option Piece) (b2 : Board) :
      ReachableBoard b → Board.setTile b p x = some b2 → ReachableBoard b2

/- ===== Helper lemmas ===== -/

theorem splitOnChar_ne_nil (sep : Char) (l : List Char) :
    splitOnChar sep l ≠ [] := by
  cases l with
  | nil => simp [splitOnChar]
  | cons c rest =>
    simp only [splitOnChar]
    split
    · simp
    · split <;> simp

theorem length_splitOnChar (sep : Char) (l : List Char) :
    (splitOnChar sep l).length = l.count sep + 1 := by
  induction l with
  | nil => simp [splitOnChar]
  | cons c rest ih =>
    simp only [splitOnChar]
    by_cases h : c = sep
    · subst h
      simp [List.count_cons, ih]
    · rw [if_neg h]
      rcases hsp : splitOnChar sep rest with _ | ⟨hd, tl⟩
      · exact absurd hsp (splitOnChar_ne_nil sep rest)
      · have := ih
        rw [hsp] at this
        simp only [List.length_cons] at this ⊢
        simp [List.count_cons, h, this]

theorem splitOnChar_of_not_mem {sep : Char} {a : List Char} (h : sep ∉ a) :
    splitOnChar sep a = [a] := by
  induction a with
  | nil => simp [splitOnChar]
  | cons c rest ih =>
    have h1 : ¬(c = sep) := by intro hc; exact h (by simp [hc])
    have h2 : sep ∉ rest := by intro hm; exact h (by simp [hm])
    simp only [splitOnChar, if_neg h1, ih h2]

theorem splitOnChar_append {sep : Char} {a : List Char} (b : List Char)
    (h : sep ∉ a) :
    splitOnChar sep (a ++ sep :: b) = a :: splitOnChar sep b := by
  induction a with
  | nil => simp [splitOnChar]
  | cons c rest ih =>
    have h1 : ¬(c = sep) := by intro hc; exact h (by simp [hc])
    have h2 : sep ∉ rest := by intro hm; exact h (by simp [hm])
    simp only [List.cons_append, splitOnChar, if_neg h1]
    rw [show rest.append (sep :: b) = rest ++ sep :: b from rfl, ih h2]

theorem splitOnceChar_append {sep : Char} {a : List Char} (b : List Char)
    (h : sep ∉ a) :
    splitOnceChar sep (a ++ sep :: b) = some (a, b) := by
  induction a with
  | nil => simp [splitOnceChar]
  | cons c rest ih =>
    have h1 : ¬(c = sep) := by intro hc; exact h (by simp [hc])
    have h2 : sep ∉ rest := by intro hm; exact h (by simp [hm])
    simp only [List.cons_append, splitOnceChar, if_neg h1]
    rw [show rest.append (sep :: b) = rest ++ sep :: b from rfl, ih h2]
    rfl

/- ===== Claim C5 ===== -/

/-- C5: for every input string whose number of `/`-delimited rows is
`n ≠ 8`, parsing it as a `Board` returns `Err(InvalidRowCount(n))`,
regardless of the contents of the individual rows. -/
theorem board_fromStr_invalid_row_count (s : List Char)
    (h : (splitOnChar '/' s).length ≠ 8) :
    Board.fromStr s
      = some (.error (.InvalidRowCount ((splitOnChar '/' s).length))) := by
  have hc : s.count '/' + 1 = (splitOnChar '/' s).length :=
    (length_splitOnChar '/' s).symm
  unfold Board.fromStr
  rw [hc, if_neg h]

/-- Witness for C5: a two-row string full of otherwise-invalid rows yields
`InvalidRowCount 2`. -/
theorem board_fromStr_invalid_row_count_witness :
    (splitOnChar '/' "Ã¶x/?!".toList).length ≠ 8 ∧
      Board.fromStr "Ã¶x/?!".toList
        = some (.error (.InvalidRowCount ((splitOnChar '/' "Ã¶x/?!".toList).length))) :=
  ⟨by decide, board_fromStr_invalid_row_count "Ã¶x/?!".toList (by decide)⟩

/- ===== Claim C7 ===== -/

/-- C7: parsing the standard-position FEN placement succeeds and yields the
standard starting position laid out with textual row `i` at board row
`7 - i` and textual column `j` at board column `j` (`stdGrid` is indexed by
board column and row); in particular board square (column 0, row 7) holds a
black rook and (column 4, row 1) a white pawn. -/
theorem board_fromStr_standard_position :
    Board.fromStr "rnbqkbnr/pppppppp/8/8/8/8/PPPPPPPP/RNBQKBNR".toList
        = some (.ok (boardOfGrid stdGrid)) ∧
      (∀ c r : Fin 8, (boardOfGrid stdGrid).tile ⟨c, r⟩ = some (stdGrid c r)) ∧
      (boardOfGrid stdGrid).tile ⟨0, 7⟩
        = some (some ⟨PieceKind.Rook, Color.Black⟩) ∧
      (boardOfGrid stdGrid).tile ⟨4, 1⟩
        = some (some ⟨PieceKind.Pawn, Color.White⟩) :=
  ⟨by decide, by decide, by decide, by decide⟩

/- ===== Claim C8 ===== -/

/-- C8: `write` returns `Ok(())` exactly when the transport accepted all
128 bytes of the serialized frame in the single `write` call; accepting
fewer than 128 bytes yields an error, never a silent success. -/
theorem write_ok_iff_all_bytes_accepted (message : Message) (accepted : Nat)
    (h : message.serialize.length = 128) :
    ChesstpMessageStream.write message accepted = .ok () ↔ 128 ≤ accepted := by
  simp only [ChesstpMessageStream.write, h]
  constructor
  · intro hw
    by_contra hn
    have hmin : min accepted 128 = accepted := by omega
    rw [hmin, if_pos (by omega)] at hw
    exact Except.noConfusion hw
  · intro hn
    have hmin : min accepted 128 = 128 := by omega
    rw [hmin, if_neg (by simp)]

/-- Witness for C8: an empty quit message serializes to a 128-byte frame;
with exactly 128 bytes accepted, `write` returns `Ok(())`. -/
theorem write_ok_iff_all_bytes_accepted_witness :
    (Message.Quit ⟨[]⟩).serialize.length = 128 ∧
      ChesstpMessageStream.write (Message.Quit ⟨[]⟩) 128 = .ok () :=
  ⟨by decide,
    (write_ok_iff_all_bytes_accepted (Message.Quit ⟨[]⟩) 128 (by decide)).mpr
      (by decide)⟩

/- ===== Claim C1 (refuting theorem) ===== -/

/-- C1 fails on the code: the same content `"ChessX"` delivered as one
chunk lets `skip_until_slice` find the `"Chess"` slice with zero bytes
consumed before it, but delivered as the chunks `"Ches"` and `"sX"` the
scanner discards all bytes of the split occurrence and reports
`Ok(None)` — bytes that could become part of a match are discarded. -/
theorem skip_until_slice_chunking_dependent :
    skip_until_slice chessSliceBytes
        ⟨[], ["ChessX".toList.map Char.toNat], false⟩
      = (some (), ⟨"ChessX".toList.map Char.toNat, [], false⟩) ∧
    skip_until_slice chessSliceBytes
        ⟨[], ["Ches".toList.map Char.toNat, "sX".toList.map Char.toNat], false⟩
      = (none, ⟨[], [], false⟩) :=
  ⟨by decide, by decide⟩

/- ===== Claim C2 (refuting theorem) ===== -/

/-- C2 fails on the code: with the first 60 bytes of a valid 128-byte
frame buffered (and the rest not yet arrived), `accept` returns `Ok(None)`
but `read_exact` has consumed and discarded all 60 bytes, including the
`"Chess"` slice itself; delivering the remaining 68 bytes afterwards can
then never produce the message, although the full frame delivered at once
decodes fine. -/
theorem accept_partial_frame_loses_bytes :
    ChesstpMessageStream.accept ⟨quitFrameBytes.take 60, [], false⟩
        = some (.ok none, ⟨[], [], false⟩) ∧
      ChesstpMessageStream.accept ⟨[], [quitFrameBytes.drop 60], false⟩
        = some (.ok none, ⟨[], [], false⟩) ∧
      ChesstpMessageStream.accept ⟨quitFrameBytes, [], false⟩
        = some (.ok (some (.Quit ⟨"hi".toList⟩)), ⟨[], [], false⟩) :=
  ⟨by decide, by decide, by decide⟩

/- ===== Claim C10 ===== -/

/-- C10: a drained reader — no buffered bytes, no pending chunks — makes
`skip_until_slice` return `Ok(None)` with the state unchanged, whether the
stream is at end of stream (`atEof = true`, the peer closed the
connection) or merely would block; hence `accept` returns `Ok(None)`, and
since the state is unchanged every subsequent call returns `Ok(None)`
again: closure is never surfaced as an error nor distinguishable from
"no data yet". -/
theorem accept_after_eof_keeps_returning_none (r : NetReader)
    (hb : r.buffer = []) (hc : r.chunks = []) :
    skip_until_slice chessSliceBytes r = (none, r) ∧
      ChesstpMessageStream.accept r = some (.ok none, r) := by
  obtain ⟨buf, chs, eof⟩ := r
  simp only at hb hc
  subst hb
  subst hc
  cases eof
  · exact ⟨by decide, by decide⟩
  · exact ⟨by decide, by decide⟩

/-- Witness for C10: the closed-and-drained reader. -/
theorem accept_after_eof_keeps_returning_none_witness :
    skip_until_slice chessSliceBytes ⟨[], [], true⟩ = (none, ⟨[], [], true⟩) ∧
      ChesstpMessageStream.accept ⟨[], [], true⟩
        = some (.ok none, ⟨[], [], true⟩) :=
  accept_after_eof_keeps_returning_none ⟨[], [], true⟩ rfl rfl

/- ===== Claim C6 ===== -/

/-- The row-collection pass short-circuits at the first row (in textual
order) whose `FenBoardRowPieces` item count differs from 8, reporting that
row's count. -/
theorem buildRows_first_bad (rows : List (List Char)) (k i : Nat)
    (hi : i < rows.length)
    (hbad : (fenItems (rows.get ⟨i, hi⟩)).length ≠ 8)
    (hfirst : ∀ j (hj : j < rows.length), j < i →
      (fenItems (rows.get ⟨j, hj⟩)).length = 8) :
    buildRows k rows
      = .error (.InvalidColumnCount (fenItems (rows.get ⟨i, hi⟩)).length) := by
  induction rows generalizing k i with
  | nil => exact absurd hi (by simp)
  | cons row rest ih =>
    simp only [buildRows]
    cases i with
    | zero =>
      simp only [List.get] at hbad ⊢
      rw [List.length_map, List.enum_length]
      rw [if_neg hbad]
    | succ i2 =>
      have h0 : (fenItems row).length = 8 := by
        have := hfirst 0 (by simp) (Nat.succ_pos i2)
        simpa using this
      rw [List.length_map, List.enum_length, if_pos h0]
      have hi2 : i2 < rest.length := by
        simpa [Nat.succ_lt_succ_iff] using hi
      have hbad2 : (fenItems (rest.get ⟨i2, hi2⟩)).length ≠ 8 := by
        simpa using hbad
      have hfirst2 : ∀ j (hj : j < rest.length), j < i2 →
          (fenItems (rest.get ⟨j, hj⟩)).length = 8 := by
        intro j hj hji
        have := hfirst (j + 1) (by simpa [Nat.succ_lt_succ_iff] using hj)
          (by omega)
        simpa using this
      rw [ih (k + 1) i2 hi2 hbad2 hfirst2]
      simp

/-- C6: with exactly 8 `/`-delimited rows, if some row's expanded column
total differs from 8, parsing fails with `InvalidColumnCount(n)` where `n`
is the expanded total of the first offending row in textual order, even
when other rows are invalid in other ways. -/
theorem board_fromStr_invalid_column_count (s : List Char) (i : Nat)
    (hi : i < (splitOnChar '/' s).length)
    (hlen : (splitOnChar '/' s).length = 8)
    (hbad : (fenItems ((splitOnChar '/' s).get ⟨i, hi⟩)).length ≠ 8)
    (hfirst : ∀ j (hj : j < (splitOnChar '/' s).length), j < i →
      (fenItems ((splitOnChar '/' s).get ⟨j, hj⟩)).length = 8) :
    Board.fromStr s
      = some (.error (.InvalidColumnCount
          (fenItems ((splitOnChar '/' s).get ⟨i, hi⟩)).length)) := by
  have hc : s.count '/' + 1 = 8 := by
    rw [← length_splitOnChar '/' s]
    exact hlen
  unfold Board.fromStr
  rw [if_pos hc, buildRows_first_bad (splitOnChar '/' s) 0 i hi hbad hfirst]

/-- Witness for C6: the test vector whose seventh textual row has 6
effective columns (rows before it are fine, the last row is also
short) yields `InvalidColumnCount 6`. -/
theorem board_fromStr_invalid_column_count_witness :
    (fenItems ((splitOnChar '/'
        "rnbqkbnr/pp1ppppp/8/2p5/4P3/5N2/PPPP1P/RNBQKB1R".toList).get
          ⟨6, by decide⟩)).length = 6 ∧
      Board.fromStr "rnbqkbnr/pp1ppppp/8/2p5/4P3/5N2/PPPP1P/RNBQKB1R".toList
        = some (.error (.InvalidColumnCount
            (fenItems ((splitOnChar '/'
              "rnbqkbnr/pp1ppppp/8/2p5/4P3/5N2/PPPP1P/RNBQKB1R".toList).get
                ⟨6, by decide⟩)).length)) :=
  ⟨by decide,
    board_fromStr_invalid_column_count
      "rnbqkbnr/pp1ppppp/8/2p5/4P3/5N2/PPPP1P/RNBQKB1R".toList 6 (by decide)
      (by decide) (by decide) (by decide)⟩

/- ===== Claim C4 ===== -/

theorem char_eq_of_toNat_eq {c d : Char} (h : c.toNat = d.toNat) : c = d := by
  cases c
  cases d
  simp only [Char.toNat] at h
  congr 1
  exact UInt32.ext h

/-- Under the move-code range guard, `Position::parse` succeeds whenever
the row character stays below `'9'`. -/
theorem position_parse_isSome (c r : Char) (hc1 : 65 ≤ c.toNat)
    (hc2 : c.toNat ≤ 72) (hr1 : 49 ≤ r.toNat) (hr2 : r.toNat ≤ 56) :
    (Position.parse [c, r]).isSome = true := by
  have hn1 : ¬(48 ≤ c.toNat ∧ c.toNat ≤ 57) := by omega
  have hn2 : ¬(97 ≤ c.toNat ∧ c.toNat ≤ 122) := by omega
  have hp3 : 65 ≤ c.toNat ∧ c.toNat ≤ 90 := by omega
  have hrd : 48 ≤ r.toNat ∧ r.toNat ≤ 57 := by omega
  have h18 : c.toNat - 65 + 10 < 18 := by omega
  have h10 : r.toNat - 48 < 10 := by omega
  have hbound : c.toNat - 65 + 10 - 10 < 8 ∧ r.toNat - 48 - 1 < 8 := by omega
  simp [Position.parse, charToDigit, Position.new, hn1, hn2, hp3.1, hp3.2,
    hrd.1, hrd.2, h18, h10, hbound, hc1, hc2, hr1, hr2]
  omega

/-- `Position::parse` rejects a row character `'9'`. -/
theorem position_parse_none_of_nine (c r : Char) (hr : r.toNat = 57) :
    Position.parse [c, r] = none := by
  simp only [Position.parse]
  rw [if_neg (by omega)]

/-- The move-code block rejects, with `InvalidMove` carrying the raw code,
every string that is not five characters of the documented shape, and also
the shape-conforming codes whose row digit is `'9'`. -/
theorem moveCodeParse_invalid (m : List Char)
    (hbad :
      (¬ ∃ c1 r1 c2 r2 pc, m = [c1, r1, c2, r2, pc] ∧
          ((65 ≤ c1.toNat ∧ c1.toNat ≤ 72) ∧ (48 ≤ r1.toNat ∧ r1.toNat ≤ 57) ∧
            (65 ≤ c2.toNat ∧ c2.toNat ≤ 72) ∧ (48 ≤ r2.toNat ∧ r2.toNat ≤ 57) ∧
            (toAsciiLower pc = '0' ∨ toAsciiLower pc = 'p' ∨
              toAsciiLower pc = 'n' ∨ toAsciiLower pc = 'b' ∨
              toAsciiLower pc = 'r' ∨ toAsciiLower pc = 'q' ∨
              toAsciiLower pc = 'k'))) ∨
        (∃ c1 r1 c2 r2 pc, m = [c1, r1, c2, r2, pc] ∧ (r1 = '9' ∨ r2 = '9'))) :
    moveCodeParse m = .error (.InvalidMove m) := by
  rcases hbad with hnot | ⟨c1, r1, c2, r2, pc, hm, h9⟩
  · rcases m with _ | ⟨a1, _ | ⟨a2, _ | ⟨a3, _ | ⟨a4, _ | ⟨a5, _ | ⟨a6, tail⟩⟩⟩⟩⟩⟩
    · rfl
    · rfl
    · rfl
    · rfl
    · rfl
    · simp only [moveCodeParse]
      by_cases hg : (65 ≤ a1.toNat ∧ a1.toNat ≤ 72) ∧
          (49 ≤ a2.toNat ∧ a2.toNat ≤ 57) ∧
          (65 ≤ a3.toNat ∧ a3.toNat ≤ 72) ∧ (49 ≤ a4.toNat ∧ a4.toNat ≤ 57)
      · obtain ⟨hga, hgb, hgc, hgd⟩ := hg
        rw [if_pos ⟨hga, hgb, hgc, hgd⟩]
        have hpr : ¬(toAsciiLower a5 = '0' ∨ toAsciiLower a5 = 'p' ∨
            toAsciiLower a5 = 'n' ∨ toAsciiLower a5 = 'b' ∨
            toAsciiLower a5 = 'r' ∨ toAsciiLower a5 = 'q' ∨
            toAsciiLower a5 = 'k') := by
          intro hp
          exact hnot ⟨a1, a2, a3, a4, a5, rfl,
            hga, ⟨by omega, by omega⟩, hgc, ⟨by omega, by omega⟩, hp⟩
        by_cases h2 : a2.toNat = 57
        · rw [position_parse_none_of_nine a1 a2 h2]
        · have h2le : a2.toNat ≤ 56 := by omega
          obtain ⟨src, hsrc⟩ := Option.isSome_iff_exists.mp
            (position_parse_isSome a1 a2 hga.1 hga.2 hgb.1 h2le)
          rw [hsrc]
          by_cases h4 : a4.toNat = 57
          · rw [position_parse_none_of_nine a3 a4 h4]
          · have h4le : a4.toNat ≤ 56 := by omega
            obtain ⟨dst, hdst⟩ := Option.isSome_iff_exists.mp
              (position_parse_isSome a3 a4 hgc.1 hgc.2 hgd.1 h4le)
            rw [hdst]
            push_neg at hpr
            obtain ⟨hp0, hpp, hpn, hpb, hprk, hpq, hpk⟩ := hpr
            dsimp only
            rw [if_neg hp0, if_neg hpp, if_neg hpn, if_neg hpb, if_neg hprk,
              if_neg hpq, if_neg hpk]
      · rw [if_neg hg]
    · rfl
  · subst hm
    simp only [moveCodeParse]
    by_cases hg : (65 ≤ c1.toNat ∧ c1.toNat ≤ 72) ∧
        (49 ≤ r1.toNat ∧ r1.toNat ≤ 57) ∧
        (65 ≤ c2.toNat ∧ c2.toNat ≤ 72) ∧ (49 ≤ r2.toNat ∧ r2.toNat ≤ 57)
    · obtain ⟨hga, hgb, hgc, hgd⟩ := hg
      rw [if_pos ⟨hga, hgb, hgc, hgd⟩]
      by_cases h1 : r1 = '9'
      · rw [position_parse_none_of_nine c1 r1 (by rw [h1]; rfl)]
      · have h1ne : r1.toNat ≠ 57 := by
          intro hx
          exact h1 (char_eq_of_toNat_eq hx)
        have h1le : r1.toNat ≤ 56 := by omega
        obtain ⟨src, hsrc⟩ := Option.isSome_iff_exists.mp
          (position_parse_isSome c1 r1 hga.1 hga.2 hgb.1 h1le)
        rw [hsrc]
        rcases h9 with h9 | h9
        · exact absurd h9 h1
        · rw [position_parse_none_of_nine c2 r2 (by rw [h9]; rfl)]
    · rw [if_neg hg]

/-- C4: for every `ChessMOVE` payload whose remainder splits into at least
four `:`-delimited parts, a move-code part that is not exactly five
characters of the shape column-letter `A`–`H`, row digit, column letter,
row digit, promotion character (`'0'` or a piece letter, case-insensitive)
fails with `InvalidMove` carrying exactly the raw move-code substring; a
shape-conforming code whose row digit is `'9'` (accepted by the
character-range guard, outside the board's 1–8 range) fails the same
way. -/
theorem moveMessage_fromStr_invalid_move (s : List Char)
    (m ph bd pd : List Char) (tl : List (List Char))
    (hsplit : splitOnChar ':' s = m :: ph :: bd :: pd :: tl)
    (hbad :
      (¬ ∃ c1 r1 c2 r2 pc, m = [c1, r1, c2, r2, pc] ∧
          ((65 ≤ c1.toNat ∧ c1.toNat ≤ 72) ∧ (48 ≤ r1.toNat ∧ r1.toNat ≤ 57) ∧
            (65 ≤ c2.toNat ∧ c2.toNat ≤ 72) ∧ (48 ≤ r2.toNat ∧ r2.toNat ≤ 57) ∧
            (toAsciiLower pc = '0' ∨ toAsciiLower pc = 'p' ∨
              toAsciiLower pc = 'n' ∨ toAsciiLower pc = 'b' ∨
              toAsciiLower pc = 'r' ∨ toAsciiLower pc = 'q' ∨
              toAsciiLower pc = 'k'))) ∨
        (∃ c1 r1 c2 r2 pc, m = [c1, r1, c2, r2, pc] ∧ (r1 = '9' ∨ r2 = '9'))) :
    MoveMessage.fromStr s = some (.error (.InvalidMove m)) := by
  have hmc := moveCodeParse_invalid m hbad
  unfold MoveMessage.fromStr
  rw [hsplit]
  dsimp only
  rw [hmc]

/-- Witness for C4: the move-code `"E9E40"` passes the character-range
guard but its source row digit `'9'` is outside the board, so the whole
payload fails with `InvalidMove "E9E40"`. -/
theorem moveMessage_fromStr_invalid_move_witness :
    splitOnChar ':' "E9E40:0-0:x:p".toList
        = ["E9E40".toList, "0-0".toList, "x".toList, "p".toList] ∧
      MoveMessage.fromStr "E9E40:0-0:x:p".toList
        = some (.error (.InvalidMove "E9E40".toList)) :=
  ⟨by decide,
    moveMessage_fromStr_invalid_move "E9E40:0-0:x:p".toList
      "E9E40".toList "0-0".toList "x".toList "p".toList []
      (by decide)
      (Or.inr ⟨'E', '9', 'E', '4', '0', by decide, Or.inl rfl⟩)⟩

/- ===== Claim C3: UTF-8 layer ===== -/

theorem char_valid_nat (c : Char) :
    c.toNat < 0xD800 ∨ (0xE000 ≤ c.toNat ∧ c.toNat < 0x110000) := by
  have h := c.valid
  simp only [UInt32.isValidChar, Nat.isValidChar, Char.toNat] at h ⊢
  exact h

theorem length_encodeCharUtf8 (c : Char) :
    (encodeCharUtf8 c).length = utf8SizeChar c := by
  by_cases h1 : c.toNat < 0x80 <;> by_cases h2 : c.toNat < 0x800 <;>
    by_cases h3 : c.toNat < 0x10000 <;>
    simp [encodeCharUtf8, utf8SizeChar, h1, h2, h3]

theorem decode_encode_cons (c : Char) (bs : List Nat) :
    decodeUtf8 (encodeCharUtf8 c ++ bs)
      = (decodeUtf8 bs).map (fun t => c :: t) := by
  have hv := char_valid_nat c
  by_cases h1 : c.toNat < 0x80
  · rw [show encodeCharUtf8 c = [c.toNat] from by simp [encodeCharUtf8, h1]]
    rw [List.singleton_append, decodeUtf8.eq_def]
    dsimp only
    rw [if_pos h1, Char.ofNat_toNat]
  · by_cases h2 : c.toNat < 0x800
    · have e1 : ¬(0xC0 + c.toNat / 64 < 0x80) := by omega
      have e2 : ¬(0xC0 + c.toNat / 64 < 0xC2) := by omega
      have e3 : 0xC0 + c.toNat / 64 < 0xE0 := by omega
      have e4 : 0x80 ≤ 0x80 + c.toNat % 64 ∧ 0x80 + c.toNat % 64 < 0xC0 := by
        omega
      rw [show encodeCharUtf8 c = [0xC0 + c.toNat / 64, 0x80 + c.toNat % 64]
        from by simp [encodeCharUtf8, h1, h2]]
      rw [List.cons_append, List.singleton_append, decodeUtf8.eq_def]
      dsimp only
      rw [if_neg e1, if_neg e2, if_pos e3, if_pos e4]
      have hval : (0xC0 + c.toNat / 64 - 0xC0) * 64 +
          (0x80 + c.toNat % 64 - 0x80) = c.toNat := by omega
      rw [hval, Char.ofNat_toNat]
    · by_cases h3 : c.toNat < 0x10000
      · have e1 : ¬(0xE0 + c.toNat / 4096 < 0x80) := by omega
        have e2 : ¬(0xE0 + c.toNat / 4096 < 0xC2) := by omega
        have e3 : ¬(0xE0 + c.toNat / 4096 < 0xE0) := by omega
        have e4 : 0xE0 + c.toNat / 4096 < 0xF0 := by omega
        have e5 : (0x80 ≤ 0x80 + c.toNat / 64 % 64 ∧
              0x80 + c.toNat / 64 % 64 < 0xC0) ∧
            (0x80 ≤ 0x80 + c.toNat % 64 ∧ 0x80 + c.toNat % 64 < 0xC0) ∧
            (0xE0 + c.toNat / 4096 = 0xE0 → 0xA0 ≤ 0x80 + c.toNat / 64 % 64) ∧
            (0xE0 + c.toNat / 4096 = 0xED →
              0x80 + c.toNat / 64 % 64 < 0xA0) := by
          omega
        rw [show encodeCharUtf8 c = [0xE0 + c.toNat / 4096,
            0x80 + c.toNat / 64 % 64, 0x80 + c.toNat % 64]
          from by simp [encodeCharUtf8, h1, h2, h3]]
        rw [List.cons_append, List.cons_append, List.singleton_append,
          decodeUtf8.eq_def]
        dsimp only
        rw [if_neg e1, if_neg e2, if_neg e3, if_pos e4, if_pos e5]
        have hval : (0xE0 + c.toNat / 4096 - 0xE0) * 4096 +
            (0x80 + c.toNat / 64 % 64 - 0x80) * 64 +
            (0x80 + c.toNat % 64 - 0x80) = c.toNat := by omega
        rw [hval, Char.ofNat_toNat]
      · have hlt : c.toNat < 0x110000 := by omega
        have e1 : ¬(0xF0 + c.toNat / 262144 < 0x80) := by omega
        have e2 : ¬(0xF0 + c.toNat / 262144 < 0xC2) := by omega
        have e3 : ¬(0xF0 + c.toNat / 262144 < 0xE0) := by omega
        have e4 : ¬(0xF0 + c.toNat / 262144 < 0xF0) := by omega
        have e5 : 0xF0 + c.toNat / 262144 < 0xF5 := by omega
        have e6 : (0x80 ≤ 0x80 + c.toNat / 4096 % 64 ∧
              0x80 + c.toNat / 4096 % 64 < 0xC0) ∧
            (0x80 ≤ 0x80 + c.toNat / 64 % 64 ∧
              0x80 + c.toNat / 64 % 64 < 0xC0) ∧
            (0x80 ≤ 0x80 + c.toNat % 64 ∧ 0x80 + c.toNat % 64 < 0xC0) ∧
            (0xF0 + c.toNat / 262144 = 0xF0 →
              0x90 ≤ 0x80 + c.toNat / 4096 % 64) ∧
            (0xF0 + c.toNat / 262144 = 0xF4 →
              0x80 + c.toNat / 4096 % 64 < 0x90) := by
          omega
        rw [show encodeCharUtf8 c = [0xF0 + c.toNat / 262144,
            0x80 + c.toNat / 4096 % 64, 0x80 + c.toNat / 64 % 64,
            0x80 + c.toNat % 64]
          from by simp [encodeCharUtf8, h1, h2, h3]]
        rw [List.cons_append, List.cons_append, List.cons_append,
          List.singleton_append, decodeUtf8.eq_def]
        dsimp only
        rw [if_neg e1, if_neg e2, if_neg e3, if_neg e4, if_pos e5, if_pos e6]
        have hval : (0xF0 + c.toNat / 262144 - 0xF0) * 262144 +
            (0x80 + c.toNat / 4096 % 64 - 0x80) * 4096 +
            (0x80 + c.toNat / 64 % 64 - 0x80) * 64 +
            (0x80 + c.toNat % 64 - 0x80) = c.toNat := by omega
        rw [hval, Char.ofNat_toNat]

theorem decodeUtf8_utf8Encode (l : List Char) :
    decodeUtf8 (utf8Encode l) = some l := by
  induction l with
  | nil => rfl
  | cons c t ih =>
    show decodeUtf8 (encodeCharUtf8 c ++ t.flatMap encodeCharUtf8) = some (c :: t)
    rw [decode_encode_cons c (t.flatMap encodeCharUtf8)]
    rw [show t.flatMap encodeCharUtf8 = utf8Encode t from rfl, ih]
    rfl

theorem length_utf8Encode (l : List Char) :
    (utf8Encode l).length = utf8Length l := by
  induction l with
  | nil => rfl
  | cons c t ih =>
    simp only [utf8Encode, List.flatMap_cons, List.length_append, utf8Length,
      List.map_cons, List.sum_cons] at ih ⊢
    rw [length_encodeCharUtf8, ih]

theorem utf8Length_append (a b : List Char) :
    utf8Length (a ++ b) = utf8Length a + utf8Length b := by
  simp [utf8Length, List.sum_append]

theorem utf8Length_cons (c : Char) (l : List Char) :
    utf8Length (c :: l) = utf8SizeChar c + utf8Length l := by
  simp [utf8Length]

theorem utf8Length_replicate_zero (k : Nat) :
    utf8Length (List.replicate k '0') = k := by
  simp [utf8Length, List.map_replicate, List.sum_replicate, utf8SizeChar]

theorem utf8Length_padTo128 (core : List Char) (h : utf8Length core ≤ 128) :
    utf8Length (padTo128 core) = 128 := by
  simp only [padTo128, utf8Length_append, utf8Length_replicate_zero]
  omega

/- ===== Claim C3: frame components ===== -/

theorem colon_not_mem_toStringUpper (p : Position) :
    ':' ∉ p.toStringUpperChars := by
  obtain ⟨c, r⟩ := p
  revert c r
  decide

theorem utf8Length_toStringUpper (p : Position) :
    utf8Length p.toStringUpperChars = 2 := by
  obtain ⟨c, r⟩ := p
  revert c r
  decide

theorem position_parse_toStringUpper (p : Position) :
    Position.parse p.toStringUpperChars = some p := by
  obtain ⟨c, r⟩ := p
  revert c r
  decide

theorem promoChar_ne_colon (o : Option PieceKind) : promoChar o ≠ ':' := by
  rcases o with _ | k
  · decide
  · cases k <;> decide

theorem utf8SizeChar_promoChar (o : Option PieceKind) :
    utf8SizeChar (promoChar o) = 1 := by
  rcases o with _ | k
  · decide
  · cases k <;> decide

theorem colon_not_mem_phaseCode (gp : GamePhase) : ':' ∉ phaseCode gp := by
  cases gp <;> decide

theorem utf8Length_phaseCode (gp : GamePhase) : utf8Length (phaseCode gp) = 3 := by
  cases gp <;> decide

theorem colon_not_mem_moveCode (source dest : Position)
    (promotion : Option PieceKind) :
    ':' ∉ moveCodeChars source dest promotion := by
  intro hm
  simp only [moveCodeChars, List.mem_append, List.mem_singleton] at hm
  rcases hm with (hm | hm) | hm
  · exact colon_not_mem_toStringUpper source hm
  · exact colon_not_mem_toStringUpper dest hm
  · exact promoChar_ne_colon promotion hm.symm

theorem utf8Length_moveCode (source dest : Position)
    (promotion : Option PieceKind) :
    utf8Length (moveCodeChars source dest promotion) = 5 := by
  simp only [moveCodeChars, utf8Length_append, utf8Length_toStringUpper,
    utf8Length_cons, utf8SizeChar_promoChar]
  rfl

theorem colon_not_mem_replicate_zero (k : Nat) :
    ':' ∉ List.replicate k '0' := by
  intro hm
  rw [List.mem_replicate] at hm
  exact absurd hm.2 (by decide)

theorem toStringUpper_explicit : ∀ (c r : Fin 8),
    Position.toStringUpperChars ⟨c, r⟩
      = [Char.ofNat (65 + c.val), Char.ofNat (49 + r.val)] := by decide

theorem upperChar_range : ∀ c : Fin 8,
    65 ≤ (Char.ofNat (65 + c.val)).toNat ∧
      (Char.ofNat (65 + c.val)).toNat ≤ 72 := by decide

theorem rowChar_range : ∀ r : Fin 8,
    49 ≤ (Char.ofNat (49 + r.val)).toNat ∧
      (Char.ofNat (49 + r.val)).toNat ≤ 57 := by decide

theorem position_parse_explicit : ∀ (c r : Fin 8),
    Position.parse [Char.ofNat (65 + c.val), Char.ofNat (49 + r.val)]
      = some ⟨c, r⟩ := by decide

theorem moveCodeParse_moveCodeChars (source dest : Position)
    (promotion : Option PieceKind) :
    moveCodeParse (moveCodeChars source dest promotion)
      = .ok (source, dest, promotion) := by
  obtain ⟨c1, r1⟩ := source
  obtain ⟨c2, r2⟩ := dest
  simp only [moveCodeChars, toStringUpper_explicit, List.cons_append,
    List.nil_append]
  simp only [moveCodeParse]
  rw [if_pos ⟨upperChar_range c1, rowChar_range r1, upperChar_range c2,
    rowChar_range r2⟩]
  rw [position_parse_explicit c1 r1, position_parse_explicit c2 r2]
  rcases promotion with _ | k
  · rfl
  · cases k <;> rfl

theorem boardEncodeChars_new_empty :
    boardEncodeChars Board.new_empty = "8/8/8/8/8/8/8/8".toList := by decide

theorem board_fromStr_empty :
    Board.fromStr ['8', '/', '8', '/', '8', '/', '8', '/', '8', '/', '8', '/',
        '8', '/', '8'] = some (.ok Board.new_empty) := by
  decide

/-- C3: serializing a constructible `Message` — either `Move` variant over
every source/destination square, all seven promotion options and all four
game-phase codes, carrying the empty board, or `Quit` with any colon-free
text fitting the frame (covering empty and non-ASCII text) — to its
128-byte frame and parsing it back with `Message::parse_from` yields `Ok`
of an equal `Message`. -/
theorem message_roundtrip (msg : Message)
    (hcon : match msg with
      | .Move m => m.board = Board.new_empty
      | .Quit q => ':' ∉ q.message ∧ utf8Length q.message ≤ 117) :
    Message.parse_from msg.serialize = some (.ok msg) ∧
      msg.serialize.length = 128 := by
  have hparse : Message.parse_from msg.serialize
      = Message.parseFromChars msg.serializeChars := by
    simp only [Message.serialize, Message.parse_from, decodeUtf8_utf8Encode]
  have hlen : msg.serialize.length = utf8Length msg.serializeChars := by
    simp only [Message.serialize, length_utf8Encode]
  rcases msg with m | q
  · obtain ⟨src, dst, promo, phase, board⟩ := m
    simp only at hcon
    subst hcon
    have h10 : "ChessMOVE:".toList = "ChessMOVE".toList ++ [':'] := by decide
    constructor
    · rw [hparse]
      simp only [Message.serializeChars, padTo128, boardEncodeChars_new_empty,
        h10]
      simp only [List.append_assoc, List.cons_append, List.singleton_append,
        List.nil_append]
      simp only [Message.parseFromChars,
        splitOnceChar_append _ (show ':' ∉ "ChessMOVE".toList by decide)]
      simp only [MoveMessage.fromStr,
        splitOnChar_append _ (colon_not_mem_moveCode src dst promo),
        splitOnChar_append _ (colon_not_mem_phaseCode phase),
        splitOnChar_append _ (show ':' ∉ "8/8/8/8/8/8/8/8".toList by decide),
        splitOnChar_of_not_mem (colon_not_mem_replicate_zero _),
        moveCodeParse_moveCodeChars]
      cases phase <;>
        simp [phaseCode, board_fromStr_empty, Except.map,
          show Board.fromStr "8/8/8/8/8/8/8/8".toList
            = some (.ok Board.new_empty) from board_fromStr_empty]
    · rw [hlen]
      simp only [Message.serializeChars]
      rw [utf8Length_padTo128]
      rw [boardEncodeChars_new_empty]
      simp only [utf8Length_append, utf8Length_cons, utf8Length_moveCode,
        utf8Length_phaseCode,
        show utf8SizeChar ':' = 1 from by decide,
        show utf8Length "ChessMOVE:".toList = 10 from by decide,
        show utf8Length "8/8/8/8/8/8/8/8".toList = 15 from by decide,
        show utf8Length ([':'] : List Char) = 1 from by decide,
        show utf8SizeChar 'C' = 1 from by decide,
        show utf8SizeChar 'h' = 1 from by decide,
        show utf8SizeChar 'e' = 1 from by decide,
        show utf8SizeChar 's' = 1 from by decide,
        show utf8SizeChar 'M' = 1 from by decide,
        show utf8SizeChar 'O' = 1 from by decide,
        show utf8SizeChar 'V' = 1 from by decide,
        show utf8SizeChar 'E' = 1 from by decide,
        show utf8SizeChar '8' = 1 from by decide,
        show utf8SizeChar '/' = 1 from by decide,
        show utf8Length ([] : List Char) = 0 from by decide]
      omega
  · obtain ⟨text⟩ := q
    simp only at hcon
    obtain ⟨hnc, hle⟩ := hcon
    have h10 : "ChessQUIT:".toList = "ChessQUIT".toList ++ [':'] := by decide
    constructor
    · rw [hparse]
      simp only [Message.serializeChars, padTo128, h10]
      simp only [List.append_assoc, List.cons_append, List.singleton_append,
        List.nil_append]
      simp only [Message.parseFromChars,
        splitOnceChar_append _ (show ':' ∉ "ChessQUIT".toList by decide)]
      simp only [QuitMessage.fromStr, splitOnChar_append _ hnc,
        splitOnChar_of_not_mem (colon_not_mem_replicate_zero _)]
      rfl
    · rw [hlen]
      simp only [Message.serializeChars]
      rw [utf8Length_padTo128]
      simp only [utf8Length_append, utf8Length_cons,
        show utf8Length "ChessQUIT:".toList = 10 from by decide,
        show utf8Length ([':'] : List Char) = 1 from by decide,
        show utf8SizeChar ':' = 1 from by decide,
        show utf8SizeChar 'C' = 1 from by decide,
        show utf8SizeChar 'h' = 1 from by decide,
        show utf8SizeChar 'e' = 1 from by decide,
        show utf8SizeChar 's' = 1 from by decide,
        show utf8SizeChar 'Q' = 1 from by decide,
        show utf8SizeChar 'U' = 1 from by decide,
        show utf8SizeChar 'I' = 1 from by decide,
        show utf8SizeChar 'T' = 1 from by decide,
        show utf8Length ([] : List Char) = 0 from by decide]
      omega

/-- Witness for C3: a `Move` message over the empty board and a non-ASCII
`Quit` message both survive the byte-level round trip. -/
theorem message_roundtrip_witness :
    (Message.parse_from (Message.Move
          ⟨⟨4, 1⟩, ⟨4, 3⟩, some PieceKind.Queen, GamePhase.Draw,
            Board.new_empty⟩).serialize
        = some (.ok (Message.Move ⟨⟨4, 1⟩, ⟨4, 3⟩, some PieceKind.Queen,
            GamePhase.Draw, Board.new_empty⟩)) ∧
      (Message.Move ⟨⟨4, 1⟩, ⟨4, 3⟩, some PieceKind.Queen, GamePhase.Draw,
        Board.new_empty⟩).serialize.length = 128) ∧
      (Message.parse_from (Message.Quit ⟨"hëlp 🇸🇪".toList⟩).serialize
          = some (.ok (Message.Quit ⟨"hëlp 🇸🇪".toList⟩)) ∧
        (Message.Quit ⟨"hëlp 🇸🇪".toList⟩).serialize.length = 128) :=
  ⟨message_roundtrip
      (Message.Move ⟨⟨4, 1⟩, ⟨4, 3⟩, some PieceKind.Queen, GamePhase.Draw,
        Board.new_empty⟩) (by decide),
    message_roundtrip (Message.Quit ⟨"hëlp 🇸🇪".toList⟩) (by decide)⟩

/- ===== Claim C9 ===== -/

theorem length_gridMatrix {α : Type} (cell : Fin 8 → Fin 8 → α) (d : α) :
    (gridMatrix cell d).length = 9 := by
  simp [gridMatrix]

theorem gridMatrix_row {α : Type} (cell : Fin 8 → Fin 8 → α) (d : α)
    {i : Nat} (row : List α) (h : (gridMatrix cell d)[i]? = some row) :
    ∃ hi : i < 9, row = List.ofFn (n := 9) (fun j =>
      if hj : 1 ≤ i ∧ 1 ≤ j.val then
        cell ⟨j.val - 1, by have := j.isLt; omega⟩ ⟨i - 1, by omega⟩
      else d) := by
  simp only [gridMatrix, List.getElem?_ofFn, List.ofFnNthVal] at h
  split at h
  · next hi =>
    refine ⟨hi, ?_⟩
    simp only [Option.some.injEq] at h
    exact h.symm
  · exact absurd h (by simp)

theorem gridMatrix_cell {α : Type} (cell : Fin 8 → Fin 8 → α) (d : α)
    (c r : Fin 8) (row : List α)
    (hrow : (gridMatrix cell d)[r.val + 1]? = some row) :
    row[c.val + 1]? = some (cell c r) := by
  obtain ⟨hi, hrw⟩ := gridMatrix_row cell d row hrow
  subst hrw
  have hc9 : c.val + 1 < 9 := by omega
  simp only [List.getElem?_ofFn, List.ofFnNthVal, dif_pos hc9]
  rw [dif_pos (show 1 ≤ r.val + 1 ∧ 1 ≤ c.val + 1 by omega)]
  congr 1

theorem gridMatrix_set {α : Type} (cell : Fin 8 → Fin 8 → α) (d : α)
    (pc pr : Fin 8) (v : α) (row : List α)
    (hrow : (gridMatrix cell d)[pr.val + 1]? = some row) :
    (gridMatrix cell d).set (pr.val + 1) (row.set (pc.val + 1) v)
      = gridMatrix (fun c r => if c = pc ∧ r = pr then v else cell c r) d := by
  obtain ⟨hi, hrw⟩ := gridMatrix_row cell d row hrow
  subst hrw
  apply List.ext_getElem?
  intro i
  rw [List.getElem?_set]
  by_cases hip : pr.val + 1 = i
  · subst hip
    rw [if_pos rfl, if_pos (by rw [length_gridMatrix]; omega)]
    simp only [gridMatrix, List.getElem?_ofFn, List.ofFnNthVal, dif_pos hi]
    congr 1
    apply List.ext_getElem?
    intro j
    rw [List.getElem?_set]
    by_cases hjp : pc.val + 1 = j
    · subst hjp
      rw [if_pos rfl, if_pos (by rw [List.length_ofFn]; omega)]
      rw [List.getElem?_ofFn, List.ofFnNthVal,
        dif_pos (show pc.val + 1 < 9 by omega)]
      rw [dif_pos (show 1 ≤ pr.val + 1 ∧ 1 ≤ pc.val + 1 by omega)]
      rw [if_pos ⟨Fin.ext (by simp), Fin.ext (by simp)⟩]
    · rw [if_neg hjp, List.getElem?_ofFn, List.getElem?_ofFn]
      simp only [List.ofFnNthVal]
      by_cases hj9 : j < 9
      · rw [dif_pos hj9, dif_pos hj9]
        by_cases hj1 : 1 ≤ j
        · rw [dif_pos (show 1 ≤ pr.val + 1 ∧ 1 ≤ j by omega),
            dif_pos (show 1 ≤ pr.val + 1 ∧ 1 ≤ j by omega)]
          rw [if_neg (by
            intro hcc
            have := congrArg Fin.val hcc.1
            simp at this
            omega)]
        · rw [dif_neg (show ¬(1 ≤ pr.val + 1 ∧ 1 ≤ j) by omega),
            dif_neg (show ¬(1 ≤ pr.val + 1 ∧ 1 ≤ j) by omega)]
      · rw [dif_neg hj9, dif_neg hj9]
  · rw [if_neg hip]
    simp only [gridMatrix, List.getElem?_ofFn, List.ofFnNthVal]
    by_cases hi9 : i < 9
    · rw [dif_pos hi9, dif_pos hi9]
      refine congrArg _ (congrArg List.ofFn (funext fun j => ?_))
      by_cases hcnd : 1 ≤ i ∧ 1 ≤ j.val
      · rw [dif_pos hcnd, dif_pos hcnd]
        rw [if_neg (by
          intro hcc
          have := congrArg Fin.val hcc.2
          simp at this
          omega)]
      · rw [dif_neg hcnd, dif_neg hcnd]
    · rw [dif_neg hi9, dif_neg hi9]

theorem gridMatrix_row_isSome {α : Type} (cell : Fin 8 → Fin 8 → α) (d : α)
    {i : Nat} (h : i < 9) : ((gridMatrix cell d)[i]?).isSome = true := by
  simp only [gridMatrix, List.getElem?_ofFn, List.ofFnNthVal, dif_pos h,
    Option.isSome_some]

theorem tile_boardOfGrid (g : Fin 8 → Fin 8 → Option Piece) (p : Position) :
    (boardOfGrid g).tile p = some (g p.column p.row) := by
  obtain ⟨c, r⟩ := p
  have hr9 : r.val + 1 < 9 := by omega
  obtain ⟨brow, hbrow⟩ := Option.isSome_iff_exists.mp
    (gridMatrix_row_isSome (fun c r => kindString (g c r)) "empty" hr9)
  obtain ⟨prow, hprow⟩ := Option.isSome_iff_exists.mp
    (gridMatrix_row_isSome (fun c r => colorChar (g c r)) ' ' hr9)
  have hbcell := gridMatrix_cell _ _ c r _ hbrow
  have hpcell := gridMatrix_cell _ _ c r _ hprow
  rcases hg : g c r with _ | ⟨kind, color⟩
  · rw [hg] at hbcell
    simp only [Board.tile, boardOfGrid, Option.bind_eq_bind, hbrow,
      Option.some_bind, hbcell, hg]
    rfl
  · rw [hg] at hbcell hpcell
    simp only [Board.tile, boardOfGrid, Option.bind_eq_bind, hbrow,
      Option.some_bind, hbcell, hprow, hpcell, hg]
    cases kind <;> cases color <;> rfl

theorem setTile_boardOfGrid (g : Fin 8 → Fin 8 → Option Piece) (p : Position)
    (x : Option Piece) :
    (boardOfGrid g).setTile p x
      = some (boardOfGrid fun c r =>
          if c = p.column ∧ r = p.row then x else g c r) := by
  obtain ⟨pc, pr⟩ := p
  have hr9 : pr.val + 1 < 9 := by omega
  obtain ⟨brow, hbrow⟩ := Option.isSome_iff_exists.mp
    (gridMatrix_row_isSome (fun c r => kindString (g c r)) "empty" hr9)
  obtain ⟨prow, hprow⟩ := Option.isSome_iff_exists.mp
    (gridMatrix_row_isSome (fun c r => colorChar (g c r)) ' ' hr9)
  have hblen : brow.length = 9 := by
    obtain ⟨_, hrw⟩ := gridMatrix_row _ _ _ hbrow
    subst hrw
    simp
  have hplen : prow.length = 9 := by
    obtain ⟨_, hrw⟩ := gridMatrix_row _ _ _ hprow
    subst hrw
    simp
  simp only [Board.setTile, boardOfGrid, hbrow, hprow, Option.bind_eq_bind,
    Option.some_bind, setAt]
  rw [if_pos (show pc.val + 1 < brow.length by omega)]
  simp only [Option.some_bind]
  rw [if_pos (show pr.val + 1
    < (gridMatrix (fun c r => kindString (g c r)) "empty").length by
      rw [length_gridMatrix]; omega)]
  simp only [Option.some_bind]
  rw [if_pos (show pc.val + 1 < prow.length by omega)]
  simp only [Option.some_bind]
  rw [if_pos (show pr.val + 1
    < (gridMatrix (fun c r => colorChar (g c r)) ' ').length by
      rw [length_gridMatrix]; omega)]
  simp only [Option.some_bind, Option.pure_def]
  rw [gridMatrix_set _ _ pc pr _ _ hbrow, gridMatrix_set _ _ pc pr _ _ hprow]
  have hbfun : (fun c r => if c = pc ∧ r = pr then kindString x
        else kindString (g c r))
      = fun c r => kindString (if c = pc ∧ r = pr then x else g c r) := by
    funext c r
    rw [apply_ite kindString]
  have hpfun : (fun c r => if c = pc ∧ r = pr then colorChar x
        else colorChar (g c r))
      = fun c r => colorChar (if c = pc ∧ r = pr then x else g c r) := by
    funext c r
    rw [apply_ite colorChar]
  rw [hbfun, hpfun]

theorem reachable_boardOfGrid (b : Board) (h : ReachableBoard b) :
    ∃ g, b = boardOfGrid g := by
  induction h with
  | empty => exact ⟨fun _ _ => none, by decide⟩
  | step b0 p x b2 hreach hset ih =>
    obtain ⟨g, rfl⟩ := ih
    rw [setTile_boardOfGrid] at hset
    exact ⟨_, (Option.some.inj hset).symm⟩

/-- C9: on every board reachable from `Board::new_empty` via `set_tile`
calls, `set_tile(p, x)` succeeds (no panic or out-of-bounds index), after
it `tile(p)` returns `x` while `tile(q)` for every other position `q`
returns what it returned before, and `tile` never panics on any of the 64
valid positions. -/
theorem board_set_tile_frame_effect (b : Board) (hb : ReachableBoard b)
    (p : Position) (x : Option Piece) :
    ∃ b2, b.setTile p x = some b2 ∧
      b2.tile p = some x ∧
      (∀ q : Position, q ≠ p → b2.tile q = b.tile q) ∧
      (∀ q : Position, (b.tile q).isSome = true) := by
  obtain ⟨g, rfl⟩ := reachable_boardOfGrid b hb
  refine ⟨_, setTile_boardOfGrid g p x, ?_, ?_, ?_⟩
  · rw [tile_boardOfGrid]
    simp
  · intro q hq
    rw [tile_boardOfGrid, tile_boardOfGrid]
    congr 1
    rw [if_neg]
    intro hcc
    exact hq (by
      obtain ⟨qc, qr⟩ := q
      obtain ⟨pc, pr⟩ := p
      cases hcc.1
      cases hcc.2
      rfl)
  · intro q
    rw [tile_boardOfGrid]
    rfl

/-- Witness for C9: placing a white pawn on a1 of the empty board. -/
theorem board_set_tile_frame_effect_witness :
    ∃ b2, Board.new_empty.setTile ⟨0, 0⟩
          (some ⟨PieceKind.Pawn, Color.White⟩) = some b2 ∧
      b2.tile ⟨0, 0⟩ = some (some ⟨PieceKind.Pawn, Color.White⟩) ∧
      (∀ q : Position, q ≠ ⟨0, 0⟩ → b2.tile q = Board.new_empty.tile q) ∧
      (∀ q : Position, (Board.new_empty.tile q).isSome = true) :=
  board_set_tile_frame_effect Board.new_empty ReachableBoard.empty ⟨0, 0⟩
    (some ⟨PieceKind.Pawn, Color.White⟩)
